import Mathlib

/-!
Verification development for the YouTube playlist transfer tool
(files `youtube_playlist.py`, `youtube_manager.py`, `Untitled-2.py`).

The Python sources are shallowly embedded: each relevant method becomes a
Lean function over explicit state, with the behaviour of the remote API
(search results, add-item success/failure, raised exceptions) supplied as
an explicit per-item environment, and wall-clock readings supplied as
explicit rational timestamps.
-/

namespace YtTransfer

/-! ## PlaylistTransfer.process_playlist (youtube_playlist.py 854-965)

Per CSV row the loop body does:
  matches = search_song(name)           -- may raise (tenacity reraise=True)
  if matches: video_id = matches[0]['videoId']   -- KeyError possible
              if not video_id: raise ValueError(...)
              add_to_playlist(playlist_id, video_id)  -- may raise
              matched_songs += 1
  else: unmatched_songs.append(...)
  except Exception as e: errors.append((song, str(e))); continue
The environment below records, for one row, what the remote calls did. -/
/-- Outcome of the `search_song` call for one row: the call raises after its
retries are exhausted, returns `None`/no matches, or returns matches whose
head may or may not carry a `videoId` key. -/
inductive SearchOut where
  | raises (msg : String)
  | noMatches
  | found (videoId : Option String)
deriving Repr, DecidableEq

/-- Outcome of the `add_to_playlist` call for one row (it raises after its
retries are exhausted, or returns True). -/
inductive AddOut where
  | raises (msg : String)
  | ok
deriving Repr, DecidableEq

/-- Environment of one row of the transfer loop: what search and add did. -/
structure ItemEnv where
  search : SearchOut
  add : AddOut
deriving Repr, DecidableEq

/-- The per-row transfer status written into the `Transfer_Status` column:
`Success`, `Not Found`, or `Error` (with the message kept for
`Error_Details`). -/
inductive Outcome where
  | success (videoId : String)
  | notFound
  | error (msg : String)
deriving Repr, DecidableEq

/-- One row of `PlaylistTransfer.process_playlist`: search, extract the
video id (an empty/falsy id raises `ValueError`, a missing key raises
`KeyError`), add; any exception becomes the row's `Error` status. -/
def processItem (env : ItemEnv) : Outcome :=
  match env.search with
  | .raises m => .error m
  | .noMatches => .notFound
  | .found none => .error "KeyError: videoId"
  | .found (some v) =>
    if v = "" then .error "Video ID not found in search result."
    else
      match env.add with
      | .raises m => .error m
      | .ok => .success v

/-- The `results` dict accumulated by `process_playlist`. -/
structure TransferResults where
  total_songs : Nat
  matched_songs : Nat
  unmatched_songs : List String
  errors : List (String × String)
deriving Repr, DecidableEq

/-- The loop body of `process_playlist`: update the counters/lists of the
`results` dict according to the row's outcome. -/
def stepRow (acc : TransferResults) (row : String × ItemEnv) : TransferResults :=
  match processItem row.2 with
  | .success _ => { acc with matched_songs := acc.matched_songs + 1 }
  | .notFound => { acc with unmatched_songs := acc.unmatched_songs ++ [row.1] }
  | .error m => { acc with errors := acc.errors ++ [(row.1, m)] }

/-- `PlaylistTransfer.process_playlist`, run to completion over the CSV rows
(`total_songs` is set to `len(df)` before the loop). -/
def process_playlist (rows : List (String × ItemEnv)) : TransferResults :=
  rows.foldl stepRow
    { total_songs := rows.length, matched_songs := 0, unmatched_songs := [], errors := [] }

/-- The per-row `Transfer_Status` column: one recorded outcome per CSV row,
in row order. -/
def transferOutcomes (rows : List (String × ItemEnv)) : List (String × Outcome) :=
  rows.map (fun r => (r.1, processItem r.2))

/-- Sum of the three per-row counters of the `results` dict. -/
def tallied (r : TransferResults) : Nat :=
  r.matched_songs + r.unmatched_songs.length + r.errors.length

/-- Error records produced by a run, in row order: one per row whose
processing raised. -/
def errorsOf (rows : List (String × ItemEnv)) : List (String × String) :=
  rows.filterMap (fun r =>
    match processItem r.2 with
    | .error m => some (r.1, m)
    | _ => none)

/-! ## YouTubeMusicAutomationAgent (youtube_manager.py)

`_process_with_retry` (lines 534-591) loops `for attempt in
range(self.security['max_retries'])` (3):
  search_song_youtube_api(song)  -- catches its own exceptions, returns None
  get_best_match / video_id = best_match.get('id',{}).get('videoId')
  if not video_id: continue       -- no add call, no sleep
  add_song_to_playlist_youtube_api(playlist_id, video_id)  -- catches, returns bool
  if success: return              -- short circuit
  except Exception: sleep(1)      -- only exceptions that escape the calls
The per-attempt behaviour of the remote calls is the environment. -/
/-- Behaviour of one attempt of `_process_with_retry`: the search returned
`None`, or returned a best match with an optional/possibly-empty video id
(together with whether the subsequent add call reported success), or an
exception escaped into the `except` branch. -/
inductive MgrAttempt where
  | searchNone
  | found (videoId : Option String) (addOk : Bool)
  | raises (msg : String)
deriving Repr, DecidableEq

/-- Trace of one `_process_with_retry` call: final success flag, the video
id recorded on success, every video id for which
`add_song_to_playlist_youtube_api` was invoked (in order), and the
`asyncio.sleep` durations executed in the `except` branch (seconds). -/
structure RetryResult where
  success : Bool
  videoId : Option String
  addCalls : List String
  sleeps : List Nat
deriving Repr, DecidableEq

/-- `security['max_retries']` (youtube_manager.py line 110). -/
def maxRetries : Nat := 3

/-- The attempt loop of `_process_with_retry`: `i` is the attempt index,
the fuel is the number of attempts left. An empty (`if not video_id`) or
missing id skips to the next attempt without an add call; an add call is
issued for every non-empty id; a reported add success returns immediately;
an escaped exception sleeps 1 second before the next attempt. -/
def mgrRetryGo (env : Nat → MgrAttempt) : Nat → Nat → RetryResult
  | _, 0 => ⟨false, none, [], []⟩
  | i, fuel + 1 =>
    match env i with
    | .searchNone => mgrRetryGo env (i + 1) fuel
    | .raises _ =>
      let r := mgrRetryGo env (i + 1) fuel
      ⟨r.success, r.videoId, r.addCalls, 1 :: r.sleeps⟩
    | .found none _ => mgrRetryGo env (i + 1) fuel
    | .found (some v) ok =>
      if v = "" then mgrRetryGo env (i + 1) fuel
      else if ok then ⟨true, some v, [v], []⟩
      else
        let r := mgrRetryGo env (i + 1) fuel
        ⟨r.success, r.videoId, v :: r.addCalls, r.sleeps⟩

/-- `YouTubeMusicAutomationAgent._process_with_retry` for one song. -/
def mgrRetry (env : Nat → MgrAttempt) : RetryResult := mgrRetryGo env 0 maxRetries

/-- Run state threaded through the batch loop: the target playlist's
contents (most recently inserted first), the add calls issued, the ids
successfully added in processing order, and the success/failure ledger. -/
structure MgrRun where
  playlist : List String
  addCalls : List String
  addedIds : List String
  successful : Nat
  failed : List String
deriving Repr, DecidableEq

def mgrInit (p0 : List String) : MgrRun := ⟨p0, [], [], 0, []⟩

/-- The `playlistItems().insert` body of
`add_song_to_playlist_youtube_api` uses `'position': 0` (youtube_manager.py
line 303): a successful insert places the video at the head of the
playlist. -/
def addAtPositionZero (playlist : List String) (videoId : String) : List String :=
  videoId :: playlist

/-- Process one song of the batch (`process_batch` body): run
`_process_with_retry` and update the run state; only the final successful
add call inserts into the playlist. -/
def runSong (env : String → Nat → MgrAttempt) (st : MgrRun) (s : String) : MgrRun :=
  let r := mgrRetry (env s)
  match r.success, r.videoId with
  | true, some v =>
    { playlist := addAtPositionZero st.playlist v
      addCalls := st.addCalls ++ r.addCalls
      addedIds := st.addedIds ++ [v]
      successful := st.successful + 1
      failed := st.failed }
  | _, _ =>
    { st with
      addCalls := st.addCalls ++ r.addCalls
      failed := st.failed ++ [s] }

/-- The sequential per-song loop of `process_song_list`/`process_batch`
(the batch partition processes items strictly sequentially in input order,
so it is flattened here). -/
def runMgr (env : String → Nat → MgrAttempt) (songs : List String) (st : MgrRun) : MgrRun :=
  songs.foldl (runSong env) st

/-- `songs = list(dict.fromkeys(songs))` (youtube_manager.py line 492):
deduplicate by exact raw-string equality, keeping first occurrences in
first-seen order. -/
def dictFromKeys (xs : List String) : List String :=
  xs.foldl (fun acc x => if x ∈ acc then acc else acc ++ [x]) []

/-- Result of `process_song_list`: `total_songs` is the length of the
deduplicated list, plus the run state of the batch loop. -/
structure SongListResults where
  total_songs : Nat
  run : MgrRun
deriving Repr, DecidableEq

/-- `YouTubeMusicAutomationAgent.process_song_list` (lines 488-532):
dedupe the input, then process each remaining song sequentially. -/
def process_song_list (env : String → Nat → MgrAttempt) (songs : List String)
    (p0 : List String) : SongListResults :=
  let ds := dictFromKeys songs
  ⟨ds.length, runMgr env ds (mgrInit p0)⟩

/-! ### Claim theorems on the agent batch machinery -/
/-- Environment in which every song resolves (first attempt) to the same
video id "v" and every add call reports success. -/
def dupAddEnv : String → Nat → MgrAttempt := fun _ _ => .found (some "v") true

/-! ## Retry delays

`YouTubeMusicHandler.add_to_playlist` (youtube_playlist.py 817-830) is
wrapped in `tenacity.retry(stop=stop_after_attempt(3),
wait=wait_exponential(multiplier=1, min=2, max=5), reraise=True)`.
`_process_with_retry` (youtube_manager.py 534-591) instead sleeps a
constant 1 second, and only in its `except` branch. -/
/-- `tenacity.wait_exponential`: after the attempt numbered
`attemptNumber` (1-based) fails, wait
`max(max(0, min), min(multiplier * 2^attemptNumber, max))` seconds. -/
def tenacityWait (multiplier mn mx : ℚ) (attemptNumber : Nat) : ℚ :=
  max (max 0 mn) (min (multiplier * 2 ^ attemptNumber) mx)

/-- The tenacity attempt loop around `add_to_playlist`: `env n` tells
whether the attempt with 0-based index `n` succeeds; at most 3 attempts
(`stop_after_attempt(3)`), waits computed by `wait_exponential(1, min=2,
max=5)` between attempts, the exception reraised after the last failure.
Returns the overall success flag and the list of waits slept. -/
def ypAddRetryGo (env : Nat → Bool) : Nat → Nat → Bool × List ℚ
  | _, 0 => (false, [])
  | n, fuel + 1 =>
    if env n then (true, [])
    else if fuel = 0 then (false, [])
    else
      let r := ypAddRetryGo env (n + 1) fuel
      (r.1, tenacityWait 1 2 5 (n + 1) :: r.2)

/-- `add_to_playlist` under its tenacity decorator (3 attempts). -/
def ypAddRetry (env : Nat → Bool) : Bool × List ℚ := ypAddRetryGo env 0 3

/-- Environment matching the spec scenario for `_process_with_retry`: the
add call reports failure on the first two attempts and success on the
third. -/
def addFailTwiceEnv : Nat → MgrAttempt := fun i =>
  if i < 2 then .found (some "v") false else .found (some "v") true

/-- Environment for `_process_with_retry` in which every attempt raises an
exception that escapes into the `except` branch. -/
def allRaiseEnv : Nat → MgrAttempt := fun _ => .raises "SSLError"

/-! ## process_with_quota (youtube_manager.py 593-617)

The loop walks the song list in `batch_size` slices; before each batch it
estimates `len(batch) * (search_cost + playlist_insert_cost)` and breaks
(reporting "Processed i songs") if the running total would exceed
`daily_quota`; otherwise it calls `self._process_batch(batch)`. The class
defines `process_batch(self, songs, start_idx)` but no method named
`_process_batch`, so that call raises `AttributeError` as soon as the first
batch passes the quota check. -/
/-- `quota_settings['search_cost']` (youtube_manager.py line 126). -/
def search_cost : Nat := 100

/-- `quota_settings['playlist_insert_cost']` (line 127). -/
def playlist_insert_cost : Nat := 50

/-- `quota_settings['daily_quota']` (line 125). -/
def daily_quota : Nat := 10000

/-- `self._process_batch(batch)`: `YouTubeMusicAutomationAgent` has no
attribute `_process_batch` (only `process_batch(self, songs, start_idx)`),
so the lookup raises `AttributeError` whenever it is executed. -/
def processBatchCall (_batch : List String) : Except String (List String) :=
  .error "AttributeError: _process_batch"

/-- The batch loop of `process_with_quota`: returns
`(songs processed, quota-halt flag, accumulated results)`, or the message
of an uncaught exception. -/
def pwqGo (bs : Nat) (hbs : 0 < bs) :
    List String → Nat → Nat → List String → Except String (Nat × Bool × List String)
  | [], done, _, acc => .ok (done, false, acc)
  | r :: rs, done, quota, acc =>
    let batch := (r :: rs).take bs
    let est := batch.length * (search_cost + playlist_insert_cost)
    if daily_quota < quota + est then .ok (done, true, acc)
    else
      match processBatchCall batch with
      | .error e => .error e
      | .ok results =>
        pwqGo bs hbs ((r :: rs).drop bs) (done + batch.length) (quota + est) (acc ++ results)
  termination_by rem => rem.length
  decreasing_by simp [List.length_drop]; omega

/-- `YouTubeMusicAutomationAgent.process_with_quota(songs, batch_size)`
(`batch_size` defaults to 50; `range(0, n, 0)` would raise `ValueError`). -/
def process_with_quota (songs : List String) (bs : Nat) :
    Except String (Nat × Bool × List String) :=
  if hbs : 0 < bs then pwqGo bs hbs songs 0 0 []
  else .error "ValueError: range arg 3 must not be zero"

/-! ## RateLimiter.wait

Two implementations exist. youtube_playlist.py (lines 742-749):
  current_time = time.time()
  if current_time - last_call_time < minimum_interval: sleep(...)
  last_call_time = time.time()          -- a fresh reading, at return
Untitled-2.py (lines 45-50):
  current_time = loop.time()
  if current_time - last_call_time < minimum_interval: sleep(...)
  last_call_time = current_time         -- the ENTRY reading
Timestamps are modelled as rationals; `slack ≥ 0` is the extra time the
sleep may overshoot (plus the de-scheduling gap before the final clock
read), so `entry + sleepDuration + slack` is the instant `wait()`
returns. -/
/-- `minimum_interval = 1.0 / calls_per_second`. -/
def minimum_interval (calls_per_second : ℚ) : ℚ := 1 / calls_per_second

/-- Observable result of one `wait()` call: the instant it returns and the
`last_call_time` it leaves behind. -/
structure WaitResult where
  ret : ℚ
  lastCall : ℚ
deriving Repr, DecidableEq

/-- `RateLimiter.wait` of youtube_playlist.py: sleeps the remainder of the
interval when too little time has elapsed, and stores a fresh clock reading
taken after the sleep (the return instant). -/
def ypWait (interval lastCall entry slack : ℚ) : WaitResult :=
  let since := entry - lastCall
  let sleep := if since < interval then interval - since else 0
  ⟨entry + sleep + slack, entry + sleep + slack⟩

/-- `RateLimiter.wait` of Untitled-2.py: same sleep logic, but stores the
clock reading taken at ENTRY (before the sleep). -/
def u2Wait (interval lastCall entry slack : ℚ) : WaitResult :=
  let since := entry - lastCall
  let sleep := if since < interval then interval - since else 0
  ⟨entry + sleep + slack, entry⟩

/-! ## add_to_existing_playlist size cap (youtube_manager.py 1520-1524)

  remaining_space = YOUTUBE_API_QUOTAS['playlist_item_limit'] - current_size
  if len(songs) > remaining_space: songs = songs[:remaining_space]
-/
/-- `YOUTUBE_API_QUOTAS['playlist_item_limit']` (youtube_manager.py line
58). -/
def playlist_item_limit : Nat := 5000

/-- Python's `xs[:stop]` for an integer `stop` (negative stops count from
the end). -/
def pySliceTo (xs : List String) (stop : Int) : List String :=
  if 0 ≤ stop then xs.take stop.toNat
  else xs.take (xs.length - min xs.length stop.natAbs)

/-- The truncation step of `add_to_existing_playlist` /
`handle_existing_playlists`. -/
def truncate_for_existing (songs : List String) (current_size : Nat) : List String :=
  let remaining : Int := (playlist_item_limit : Int) - current_size
  if remaining < (songs.length : Int) then pySliceTo songs remaining else songs

/-! ## YouTubeMusicHandler._sanitize_text (youtube_playlist.py 759-786)

  if not text: return ""
  normalized = unicodedata.normalize('NFKC', str(text))
  sanitized = ''.join(c for c in normalized
                      if c.isprintable() or c.isspace() or c in EXTRA)
  for old, new in SPECIALS: sanitized = sanitized.replace(old, new)
  sanitized = ' '.join(sanitized.split())
  return sanitized.strip()

Strings are lists of characters. The external library predicates —
`unicodedata.normalize('NFKC', ·)`, `str.isprintable`, `str.isspace` — are
parameters of the embedding (`nfkc`, `P`, `S`); concrete instantiations
that follow the documented Unicode behaviour on the code points exercised
are given below for the closed evaluations. -/
/-- The extra characters the filter keeps besides printable and whitespace
ones (the Python literal on line 773). -/
def extraAllowedChars : List Char :=
  "!@#$%^&*()-_+=[]\x7b\x7d|;:\x27\",.<>/?`~".toList

/-- The filter condition of line 772-773. -/
def keepChar (P S : Char → Bool) (c : Char) : Bool :=
  P c || S c || extraAllowedChars.contains c

/-- The `special_chars` replacement table of line 776 (en/em dash to `-`,
typographic double quotes to `"`, typographic single quotes to `\x27`);
each key and value is a single character, so the sequential
`str.replace` calls amount to one character map. -/
def specialReplace (c : Char) : Char :=
  if c = '–' ∨ c = '—' then '-'
  else if c = '“' ∨ c = '”' then '"'
  else if c = '’' ∨ c = '‘' then '\x27'
  else c

/-- Worker for Python `str.split()` (split on whitespace, dropping empty
fields); `acc` holds the current word, reversed. -/
def splitGo (S : Char → Bool) : List Char → List Char → List (List Char)
  | [], acc => if acc = [] then [] else [acc.reverse]
  | c :: cs, acc =>
    if S c then
      if acc = [] then splitGo S cs []
      else acc.reverse :: splitGo S cs []
    else splitGo S cs (c :: acc)

/-- Python `str.split()` with no argument. -/
def pySplit (S : Char → Bool) (s : List Char) : List (List Char) :=
  splitGo S s []

/-- Tail of `' '.join`: a space before each further word. -/
def joinTail : List (List Char) → List Char
  | [] => []
  | w :: ws => ' ' :: (w ++ joinTail ws)

/-- Python `' '.join(words)`. -/
def joinWords : List (List Char) → List Char
  | [] => []
  | w :: ws => w ++ joinTail ws

/-- Python `str.strip()`: drop leading and trailing whitespace. -/
def pyStrip (S : Char → Bool) (s : List Char) : List Char :=
  ((s.dropWhile S).reverse.dropWhile S).reverse

/-- The body of `_sanitize_text` after the emptiness check: NFKC-normalize,
filter, replace the special characters, collapse whitespace runs, strip. -/
def sanitizeCore (P S : Char → Bool) (nfkc : List Char → List Char)
    (s : List Char) : List Char :=
  pyStrip S (joinWords (pySplit S (((nfkc s).filter (keepChar P S)).map specialReplace)))

/-- `YouTubeMusicHandler._sanitize_text` (`if not text: return ""`, then
the pipeline). -/
def sanitize (P S : Char → Bool) (nfkc : List Char → List Char)
    (s : List Char) : List Char :=
  if s = [] then [] else sanitizeCore P S nfkc s

/-- `unicodedata.normalize('NFKC', ·)` restricted to the code points of the
counterexample, following the Unicode standard: the pair U+0065 (`e`)
followed by U+0301 (combining acute accent) composes to U+00E9 (`é`); all
other characters are left in place (none of them decompose or compose). -/
def nfkcModel : List Char → List Char
  | 'e' :: '\u0301' :: rest => '\u00E9' :: nfkcModel rest
  | c :: rest => c :: nfkcModel rest
  | [] => []

/-- `str.isprintable` restricted to the code points of the counterexample,
following the Unicode standard: U+0001 is a control character (not
printable); `e`, U+0301 (a nonspacing combining mark) and U+00E9 are
printable. -/
def printableModel (c : Char) : Bool := c != '\u0001'

/-- `str.isspace` on the code points of the counterexample: only the ASCII
space occurs. -/
def spaceModel (c : Char) : Bool := c == ' '

/-! ## Lemmas and claim theorems -/

theorem tallied_foldl (rows : List (String × ItemEnv)) :
    ∀ acc : TransferResults,
      tallied (rows.foldl stepRow acc) = tallied acc + rows.length := by
  induction rows with
  | nil => intro acc; simp
  | cons r rest ih =>
    intro acc
    have hstep : tallied (stepRow acc r) = tallied acc + 1 := by
      unfold stepRow tallied
      rcases processItem r.2 with v | _ | m <;> simp <;> omega
    simp only [List.foldl_cons, ih, hstep, List.length_cons]
    omega

theorem total_songs_foldl (rows : List (String × ItemEnv)) :
    ∀ acc : TransferResults,
      (rows.foldl stepRow acc).total_songs = acc.total_songs := by
  induction rows with
  | nil => intro acc; simp
  | cons r rest ih =>
    intro acc
    have hstep : (stepRow acc r).total_songs = acc.total_songs := by
      unfold stepRow
      rcases processItem r.2 with v | _ | m <;> simp
    simp only [List.foldl_cons, ih, hstep]

/-- C1: in every complete (not halted early) run of the per-item transfer
loop of `PlaylistTransfer.process_playlist`, each input row yields exactly
one recorded outcome, and `matched_songs + len(unmatched_songs) +
len(errors) == total_songs`, with `total_songs` the number of rows
processed. -/
theorem c1_ledger_complete (rows : List (String × ItemEnv)) :
    (transferOutcomes rows).length = rows.length ∧
    (process_playlist rows).matched_songs +
      (process_playlist rows).unmatched_songs.length +
      (process_playlist rows).errors.length = (process_playlist rows).total_songs ∧
    (process_playlist rows).total_songs = rows.length := by
  refine ⟨by simp [transferOutcomes], ?_, ?_⟩
  · have h1 := tallied_foldl rows
      { total_songs := rows.length, matched_songs := 0, unmatched_songs := [], errors := [] }
    have h2 := total_songs_foldl rows
      { total_songs := rows.length, matched_songs := 0, unmatched_songs := [], errors := [] }
    unfold process_playlist
    unfold tallied at h1
    simp at h1 h2
    omega
  · have h2 := total_songs_foldl rows
      { total_songs := rows.length, matched_songs := 0, unmatched_songs := [], errors := [] }
    unfold process_playlist
    simpa using h2

theorem errors_foldl (rows : List (String × ItemEnv)) :
    ∀ acc : TransferResults,
      (rows.foldl stepRow acc).errors = acc.errors ++ errorsOf rows := by
  induction rows with
  | nil => intro acc; simp [errorsOf]
  | cons r rest ih =>
    intro acc
    simp only [List.foldl_cons, ih]
    unfold stepRow errorsOf
    rcases h : processItem r.2 with v | _ | m <;> simp [h, errorsOf]

/-- C5: a per-item exception (search failure, id extraction, or add
failure) is caught at the item boundary of `process_playlist`: the row is
recorded with an `Error` outcome carrying the message, every other row
before and after it is still processed (one outcome each), and the batch is
not aborted. -/
theorem c5_item_exception_contained
    (pre post : List (String × ItemEnv)) (s : String) (env : ItemEnv) (m : String)
    (h : processItem env = .error m) :
    transferOutcomes (pre ++ (s, env) :: post) =
      transferOutcomes pre ++ (s, Outcome.error m) :: transferOutcomes post ∧
    (s, m) ∈ (process_playlist (pre ++ (s, env) :: post)).errors ∧
    (process_playlist (pre ++ (s, env) :: post)).total_songs =
      pre.length + 1 + post.length := by
  refine ⟨by simp [transferOutcomes, h], ?_, ?_⟩
  · unfold process_playlist
    rw [errors_foldl]
    have : (s, m) ∈ errorsOf (pre ++ (s, env) :: post) := by
      unfold errorsOf
      rw [List.filterMap_append]
      refine List.mem_append_right _ ?_
      simp [h]
    simp [this]
  · have h2 := total_songs_foldl (pre ++ (s, env) :: post)
      { total_songs := (pre ++ (s, env) :: post).length, matched_songs := 0,
        unmatched_songs := [], errors := [] }
    unfold process_playlist
    rw [h2]
    simp
    omega

/-- Witness for C5 at a concrete run: row "b" fails with an add exception
"boom" between two successful rows. -/
theorem c5_witness :
    transferOutcomes
        [("a", ⟨.found (some "v1"), .ok⟩), ("b", ⟨.found (some "v2"), .raises "boom"⟩),
         ("c", ⟨.found (some "v3"), .ok⟩)] =
      transferOutcomes [("a", ⟨.found (some "v1"), .ok⟩)] ++
        ("b", Outcome.error "boom") ::
          transferOutcomes [("c", ⟨.found (some "v3"), .ok⟩)] ∧
    ("b", "boom") ∈ (process_playlist
        [("a", ⟨.found (some "v1"), .ok⟩), ("b", ⟨.found (some "v2"), .raises "boom"⟩),
         ("c", ⟨.found (some "v3"), .ok⟩)]).errors ∧
    (process_playlist
        [("a", ⟨.found (some "v1"), .ok⟩), ("b", ⟨.found (some "v2"), .raises "boom"⟩),
         ("c", ⟨.found (some "v3"), .ok⟩)]).total_songs = 1 + 1 + 1 :=
  c5_item_exception_contained
    [("a", ⟨.found (some "v1"), .ok⟩)] [("c", ⟨.found (some "v3"), .ok⟩)]
    "b" ⟨.found (some "v2"), .raises "boom"⟩ "boom" (by decide)

/-! ### dict.fromkeys dedup lemmas -/
theorem dictFromKeys_loop_mem (xs : List String) :
    ∀ acc a, a ∈ xs.foldl (fun acc x => if x ∈ acc then acc else acc ++ [x]) acc ↔
      a ∈ acc ∨ a ∈ xs := by
  induction xs with
  | nil => intro acc a; simp
  | cons x rest ih =>
    intro acc a
    simp only [List.foldl_cons]
    by_cases hx : x ∈ acc
    · simp only [hx, if_pos, ih]
      constructor
      · rintro (h | h)
        · exact Or.inl h
        · exact Or.inr (List.mem_cons_of_mem _ h)
      · rintro (h | h)
        · exact Or.inl h
        · rcases List.mem_cons.mp h with rfl | h
          · exact Or.inl hx
          · exact Or.inr h
    · simp only [hx, if_neg, not_false_iff, ih]
      simp only [List.mem_append, List.mem_singleton, List.mem_cons]
      tauto

theorem dictFromKeys_loop_nodup (xs : List String) :
    ∀ acc, acc.Nodup →
      (xs.foldl (fun acc x => if x ∈ acc then acc else acc ++ [x]) acc).Nodup := by
  induction xs with
  | nil => intro acc h; simpa using h
  | cons x rest ih =>
    intro acc h
    simp only [List.foldl_cons]
    by_cases hx : x ∈ acc
    · simp only [hx, if_pos]
      exact ih acc h
    · simp only [hx, if_neg, not_false_iff]
      refine ih _ ?_
      simpa [List.nodup_append] using ⟨h, hx⟩

theorem dictFromKeys_loop_sublist (xs : List String) :
    ∀ acc, List.Sublist
      (xs.foldl (fun acc x => if x ∈ acc then acc else acc ++ [x]) acc) (acc ++ xs) := by
  induction xs with
  | nil => intro acc; simp
  | cons x rest ih =>
    intro acc
    simp only [List.foldl_cons]
    by_cases hx : x ∈ acc
    · simp only [hx, if_pos]
      refine (ih acc).trans ?_
      refine List.Sublist.append (List.Sublist.refl acc) (List.sublist_cons_self x rest)
    · simp only [hx, if_neg, not_false_iff]
      refine (ih (acc ++ [x])).trans ?_
      simp

theorem dictFromKeys_loop_prefix (xs : List String) :
    ∀ acc, List.IsPrefix acc
      (xs.foldl (fun acc x => if x ∈ acc then acc else acc ++ [x]) acc) := by
  induction xs with
  | nil => intro acc; simp
  | cons x rest ih =>
    intro acc
    simp only [List.foldl_cons]
    by_cases hx : x ∈ acc
    · simp only [hx, if_pos]
      exact ih acc
    · simp only [hx, if_neg, not_false_iff]
      exact (List.prefix_append acc [x]).trans (ih (acc ++ [x]))

theorem dictFromKeys_nodup (xs : List String) : (dictFromKeys xs).Nodup :=
  dictFromKeys_loop_nodup xs [] List.nodup_nil

theorem dictFromKeys_sublist (xs : List String) : List.Sublist (dictFromKeys xs) xs := by
  simpa using dictFromKeys_loop_sublist xs []

theorem dictFromKeys_mem (xs : List String) (a : String) :
    a ∈ dictFromKeys xs ↔ a ∈ xs := by
  simpa using dictFromKeys_loop_mem xs [] a

theorem dictFromKeys_first (x : String) (xs : List String) :
    List.IsPrefix [x] (dictFromKeys (x :: xs)) := by
  unfold dictFromKeys
  simp only [List.foldl_cons, List.not_mem_nil, if_neg, List.nil_append]
  exact dictFromKeys_loop_prefix xs [x]

/-- C2 counterexample: in the run over the two songs "a" and "b", both of
which resolve to the track id "v", `add_song_to_playlist_youtube_api` is
invoked twice for the same id "v" and both adds go through: no
session-local already-added check skips the second add, contrary to the
claim (which would force at most one add call per id). -/
theorem c2_counterexample :
    (runMgr dupAddEnv ["a", "b"] (mgrInit [])).addCalls = ["v", "v"] ∧
    (runMgr dupAddEnv ["a", "b"] (mgrInit [])).addCalls.count "v" = 2 ∧
    (runMgr dupAddEnv ["a", "b"] (mgrInit [])).addedIds = ["v", "v"] := by
  decide

theorem mgrRetry_first_success (env : Nat → MgrAttempt) (v : String)
    (h0 : env 0 = .found (some v) true) (hv : v ≠ "") :
    mgrRetry env = ⟨true, some v, [v], []⟩ := by
  unfold mgrRetry maxRetries mgrRetryGo
  rw [h0]
  simp [hv]

theorem runMgr_addCalls_map (env : String → Nat → MgrAttempt) (f : String → String)
    (songs : List String)
    (h : ∀ s ∈ songs, env s 0 = .found (some (f s)) true ∧ f s ≠ "") :
    ∀ st : MgrRun,
      (runMgr env songs st).addCalls = st.addCalls ++ songs.map f ∧
      (runMgr env songs st).addedIds = st.addedIds ++ songs.map f := by
  induction songs with
  | nil => intro st; simp [runMgr]
  | cons s rest ih =>
    intro st
    have hs := h s (List.mem_cons_self s rest)
    have hr := mgrRetry_first_success (env s) (f s) hs.1 hs.2
    have hrest : ∀ t ∈ rest, env t 0 = .found (some (f t)) true ∧ f t ≠ "" :=
      fun t ht => h t (List.mem_cons_of_mem s ht)
    have hstep : runSong env st s =
        { playlist := addAtPositionZero st.playlist (f s)
          addCalls := st.addCalls ++ [f s]
          addedIds := st.addedIds ++ [f s]
          successful := st.successful + 1
          failed := st.failed } := by
      unfold runSong
      rw [hr]
    have := ih hrest (runSong env st s)
    rw [hstep] at this
    unfold runMgr at this ⊢
    simp only [List.foldl_cons, hstep, List.map_cons]
    refine ⟨?_, ?_⟩
    · rw [this.1]; simp
    · rw [this.2]; simp

/-- C2 (amended): the run keeps no consulted session-local set of
already-added ids: `processed_videos` is initialized but never read or
updated before an add, so every song whose search resolves to a non-empty
id triggers its own `add_song_to_playlist_youtube_api` call (and successful
add), even when the id was already added earlier in the same run; repeats
are only limited by the raw-string dedup of the input list. -/
theorem c2_no_dedup_before_add (env : String → Nat → MgrAttempt)
    (f : String → String) (songs : List String) (p0 : List String)
    (h : ∀ s ∈ songs, env s 0 = .found (some (f s)) true ∧ f s ≠ "") :
    (runMgr env songs (mgrInit p0)).addCalls = songs.map f ∧
    (runMgr env songs (mgrInit p0)).addedIds = songs.map f := by
  have := runMgr_addCalls_map env f songs h (mgrInit p0)
  simpa [mgrInit] using this

/-- Witness for C2 (amended): two distinct songs both resolving to id "v"
yield two add calls and two additions of "v". -/
theorem c2_no_dedup_before_add_witness :
    (runMgr dupAddEnv ["a", "b"] (mgrInit [])).addCalls = ["a", "b"].map (fun _ => "v") ∧
    (runMgr dupAddEnv ["a", "b"] (mgrInit [])).addedIds = ["a", "b"].map (fun _ => "v") :=
  c2_no_dedup_before_add dupAddEnv (fun _ => "v") ["a", "b"] [] (by decide)

/-- C6 counterexample: `PlaylistTransfer.process_playlist` performs no
deduplication: the input with the same raw string twice yields two
recorded outcomes (and `total_songs = 2`), not one. -/
theorem c6_counterexample :
    (transferOutcomes
        [("Bohemian Rhapsody - Queen", ⟨.noMatches, .ok⟩),
         ("Bohemian Rhapsody - Queen", ⟨.noMatches, .ok⟩)]).length = 2 ∧
    (process_playlist
        [("Bohemian Rhapsody - Queen", ⟨.noMatches, .ok⟩),
         ("Bohemian Rhapsody - Queen", ⟨.noMatches, .ok⟩)]).total_songs = 2 ∧
    ¬ (transferOutcomes
        [("Bohemian Rhapsody - Queen", ⟨.noMatches, .ok⟩),
         ("Bohemian Rhapsody - Queen", ⟨.noMatches, .ok⟩)]).length = 1 := by
  decide

/-- C6 (amended): `YouTubeMusicAutomationAgent.process_song_list`
deduplicates its input by exact raw-string equality before processing
(`list(dict.fromkeys(songs))`), keeping first occurrences in first-seen
order, so the duplicated input yields one processed song; but
`PlaylistTransfer.process_playlist` performs no such dedup and yields one
outcome per raw row (see the counterexample). -/
theorem c6_dedup_first_seen (songs : List String) (env : String → Nat → MgrAttempt)
    (p0 : List String) :
    (process_song_list env songs p0).total_songs = (dictFromKeys songs).length ∧
    (dictFromKeys songs).Nodup ∧
    List.Sublist (dictFromKeys songs) songs ∧
    (∀ a, a ∈ dictFromKeys songs ↔ a ∈ songs) ∧
    (∀ x xs, List.IsPrefix [x] (dictFromKeys (x :: xs))) ∧
    dictFromKeys ["Bohemian Rhapsody - Queen", "Bohemian Rhapsody - Queen"] =
      ["Bohemian Rhapsody - Queen"] := by
  exact ⟨rfl, dictFromKeys_nodup songs, dictFromKeys_sublist songs,
    fun a => dictFromKeys_mem songs a, fun x xs => dictFromKeys_first x xs, by decide⟩

theorem runSong_playlist_inv (env : String → Nat → MgrAttempt) (p0 : List String)
    (st : MgrRun) (s : String) (h : st.playlist = st.addedIds.reverse ++ p0) :
    (runSong env st s).playlist = (runSong env st s).addedIds.reverse ++ p0 := by
  unfold runSong
  rcases hr : mgrRetry (env s) with ⟨suc, vid, ac, sl⟩
  rcases suc <;> rcases vid with _ | v <;>
    simp [addAtPositionZero, h]

theorem runMgr_playlist_inv (env : String → Nat → MgrAttempt) (p0 : List String)
    (songs : List String) :
    ∀ st : MgrRun, st.playlist = st.addedIds.reverse ++ p0 →
      (runMgr env songs st).playlist = (runMgr env songs st).addedIds.reverse ++ p0 := by
  induction songs with
  | nil => intro st h; simpa [runMgr] using h
  | cons s rest ih =>
    intro st h
    have hstep := runSong_playlist_inv env p0 st s h
    have := ih (runSong env st s) hstep
    unfold runMgr at this ⊢
    simpa [List.foldl_cons] using this

/-- C9: every add through the YouTube Data API path inserts at playlist
position 0 (`addAtPositionZero`), so after a run the ids successfully added
this run sit at the front of the target playlist in the reverse of their
processing order, ahead of the playlist's prior contents. -/
theorem c9_added_in_reverse_order (env : String → Nat → MgrAttempt)
    (songs : List String) (p0 : List String) :
    (runMgr env songs (mgrInit p0)).playlist =
      (runMgr env songs (mgrInit p0)).addedIds.reverse ++ p0 ∧
    (∀ pl v, addAtPositionZero pl v = v :: pl) := by
  refine ⟨?_, fun pl v => rfl⟩
  exact runMgr_playlist_inv env p0 songs (mgrInit p0) (by simp [mgrInit])

theorem mgrRetryGo_sleeps_ones (env : Nat → MgrAttempt) :
    ∀ fuel i, (mgrRetryGo env i fuel).sleeps =
      List.replicate (mgrRetryGo env i fuel).sleeps.length 1 := by
  intro fuel
  induction fuel with
  | zero => intro i; simp [mgrRetryGo]
  | succ fuel ih =>
    intro i
    cases h : env i with
    | searchNone => simp only [mgrRetryGo, h]; exact ih (i + 1)
    | raises m =>
      simp only [mgrRetryGo, h]
      rw [ih (i + 1)]
      simp [List.replicate_succ]
    | found vid ok =>
      cases vid with
      | none => simp only [mgrRetryGo, h]; exact ih (i + 1)
      | some v =>
        simp only [mgrRetryGo, h]
        by_cases hv : v = ""
        · simp only [hv, if_pos rfl]
          exact ih (i + 1)
        · cases ok with
          | true => simp [hv]
          | false =>
            simp only [hv, if_neg, Bool.false_eq_true, ite_false]
            exact ih (i + 1)

/-- C4 counterexample: for `_process_with_retry`, the scenario in which the
add call fails on the first two attempts and succeeds on the third ends
with success after exactly three add invocations but with NO inter-attempt
delay at all (the failure is swallowed inside
`add_song_to_playlist_youtube_api`, which returns False, and the loop
retries immediately); and when exceptions do reach the `except` branch the
sleeps are the constant `[1, 1, 1]` — not the increasing `2^attempt`
schedule the claim states. -/
theorem c4_counterexample :
    mgrRetry addFailTwiceEnv =
      ⟨true, some "v", ["v", "v", "v"], []⟩ ∧
    (mgrRetry allRaiseEnv).sleeps = [1, 1, 1] ∧
    (mgrRetry allRaiseEnv).sleeps ≠ [2 ^ 1, 2 ^ 2, 2 ^ 3] ∧
    ¬ List.Chain' (fun a b => a < b) (mgrRetry allRaiseEnv).sleeps := by
  have hs : (mgrRetry allRaiseEnv).sleeps = [1, 1, 1] := by decide
  refine ⟨by decide, hs, by decide, ?_⟩
  rw [hs]
  simp [List.chain'_cons]

/-- C4 (amended): a failing single-item add is retried up to 3 attempts and
succeeds as soon as one attempt succeeds; on the tenacity-wrapped
`add_to_playlist` path the inter-attempt delays are `2^attempt` seconds
(clamped to `[2, 5]`, i.e. exactly `2^1 = 2` and `2^2 = 4` for the at most
two waits of a 3-attempt run) and the failure surfaces (is reraised) only
after all attempts are exhausted; on the `_process_with_retry` path every
inter-attempt sleep is the constant 1 second instead. -/
theorem c4_retry_delays (env : Nat → Bool) (menv : Nat → MgrAttempt) :
    ypAddRetry env = ((env 0 || env 1 || env 2),
      if env 0 = true then [] else if env 1 = true then [(2 : ℚ) ^ 1]
      else [(2 : ℚ) ^ 1, (2 : ℚ) ^ 2]) ∧
    (mgrRetry menv).sleeps = List.replicate (mgrRetry menv).sleeps.length 1 := by
  constructor
  · have h1 : tenacityWait 1 2 5 1 = (2 : ℚ) ^ 1 := by norm_num [tenacityWait]
    have h2 : tenacityWait 1 2 5 2 = (2 : ℚ) ^ 2 := by norm_num [tenacityWait]
    cases h0 : env 0 <;> cases h1e : env 1 <;> cases h2e : env 2 <;>
      simp [ypAddRetry, ypAddRetryGo, h0, h1e, h2e, h1, h2]
  · exact mgrRetryGo_sleeps_ones menv maxRetries 0

/-- C3: evaluation of `process_with_quota` at a one-song list with the
default batch size 50. The per-item cost is `search_cost +
playlist_insert_cost = 150 ≤ 10000 = daily_quota`, so the claim requires
the single song to be processed; instead the first batch's
`self._process_batch(batch)` call raises `AttributeError` (no such method
exists) and the run dies having processed nothing. -/
theorem c3_quota_loop_crashes :
    process_with_quota ["Bohemian Rhapsody - Queen"] 50 =
      .error "AttributeError: _process_batch" ∧
    1 * (search_cost + playlist_insert_cost) ≤ daily_quota := by
  constructor
  · rw [process_with_quota, dif_pos (by norm_num)]
    rw [pwqGo]
    norm_num [processBatchCall, search_cost, playlist_insert_cost, daily_quota]
  · norm_num [search_cost, playlist_insert_cost, daily_quota]

/-- C7 counterexample: for the Untitled-2.py `RateLimiter` with
`calls_per_second = 2`, a call entering at time 10 with stored timestamp
49/5 (left by a previous call that entered at 49/5) completes at 103/10 and
stores 10 — not its return instant; the next call, entering right at that
completion, returns at 21/2, only 1/5 s — less than the minimum interval
1/2 s — after the previous call's completion. -/
theorem c7_counterexample :
    (u2Wait (minimum_interval 2) 0 (49 / 5) 0).lastCall = 49 / 5 ∧
    (u2Wait (minimum_interval 2) (49 / 5) 10 0).lastCall ≠
      (u2Wait (minimum_interval 2) (49 / 5) 10 0).ret ∧
    (u2Wait (minimum_interval 2)
          (u2Wait (minimum_interval 2) (49 / 5) 10 0).lastCall
          (u2Wait (minimum_interval 2) (49 / 5) 10 0).ret 0).ret -
        (u2Wait (minimum_interval 2) (49 / 5) 10 0).ret <
      minimum_interval 2 := by
  norm_num [u2Wait, minimum_interval]

/-- C7 (amended): the youtube_playlist.py `RateLimiter` satisfies the
claim: `wait()` stores the clock reading taken at its return, and a second
`wait()` call (any entry time, any non-negative sleep overshoot) returns no
earlier than the previous call's completion plus `1/calls_per_second`; the
Untitled-2.py variant instead stores the entry reading and violates the
spacing bound (see the counterexample). -/
theorem c7_min_spacing (interval last0 e1 s1 e2 s2 : ℚ) (h2 : 0 ≤ s2) :
    (ypWait interval last0 e1 s1).lastCall = (ypWait interval last0 e1 s1).ret ∧
    (ypWait interval last0 e1 s1).ret + interval ≤
      (ypWait interval (ypWait interval last0 e1 s1).lastCall e2 s2).ret := by
  refine ⟨rfl, ?_⟩
  unfold ypWait
  dsimp only
  split_ifs with h <;> linarith

/-- Witness for C7 (amended) at `calls_per_second = 2`: consecutive calls
entering at 1 and again at 1 with exact sleeps. -/
theorem c7_min_spacing_witness :
    (ypWait (minimum_interval 2) 0 1 0).lastCall = (ypWait (minimum_interval 2) 0 1 0).ret ∧
    (ypWait (minimum_interval 2) 0 1 0).ret + minimum_interval 2 ≤
      (ypWait (minimum_interval 2) (ypWait (minimum_interval 2) 0 1 0).lastCall 1 0).ret :=
  c7_min_spacing (minimum_interval 2) 0 1 0 1 0 (by norm_num)

/-- C10: when adding to an existing playlist whose current item count is
within the 5000-item limit, the song list is first truncated to at most
`5000 - current_size` entries, so the attempted additions can never push
the playlist past 5000 items. -/
theorem c10_truncation (songs : List String) (current_size : Nat)
    (h : current_size ≤ playlist_item_limit) :
    (truncate_for_existing songs current_size).length ≤
      playlist_item_limit - current_size ∧
    current_size + (truncate_for_existing songs current_size).length ≤
      playlist_item_limit := by
  unfold truncate_for_existing pySliceTo playlist_item_limit
  unfold playlist_item_limit at h
  dsimp only
  split_ifs with h1 h2
  · simp only [List.length_take]
    omega
  · omega
  · constructor <;> omega

/-- Witness for C10: three candidate songs against a playlist holding 4999
items are truncated to at most one. -/
theorem c10_truncation_witness :
    (truncate_for_existing ["a", "b", "c"] 4999).length ≤
      playlist_item_limit - 4999 ∧
    4999 + (truncate_for_existing ["a", "b", "c"] 4999).length ≤
      playlist_item_limit :=
  c10_truncation ["a", "b", "c"] 4999 (by norm_num [playlist_item_limit])

/-! ### split/join/strip lemmas -/
theorem splitGo_words (S : Char → Bool) :
    ∀ s acc, (∀ c ∈ acc, S c = false) →
      ∀ w ∈ splitGo S s acc, w ≠ [] ∧ ∀ c ∈ w, S c = false := by
  intro s
  induction s with
  | nil =>
    intro acc hacc w hw
    by_cases h : acc = []
    · simp [splitGo, h] at hw
    · simp [splitGo, h] at hw
      subst hw
      refine ⟨by simpa using h, ?_⟩
      intro c hc
      exact hacc c (List.mem_reverse.mp hc)
  | cons c cs ih =>
    intro acc hacc w hw
    by_cases hc : S c = true
    · by_cases h : acc = []
      · simp only [splitGo, hc, if_pos, h, if_pos rfl] at hw
        exact ih [] (by simp) w hw
      · simp only [splitGo, hc, if_pos, h, if_neg, not_false_iff] at hw
        rcases List.mem_cons.mp hw with rfl | hw
        · refine ⟨by simpa using h, ?_⟩
          intro d hd
          exact hacc d (List.mem_reverse.mp hd)
        · exact ih [] (by simp) w hw
    · simp only [Bool.not_eq_true] at hc
      simp only [splitGo, hc, Bool.false_eq_true, if_neg, not_false_iff] at hw
      refine ih (c :: acc) ?_ w hw
      intro d hd
      rcases List.mem_cons.mp hd with rfl | hd
      · exact hc
      · exact hacc d hd

theorem splitGo_mem (S : Char → Bool) :
    ∀ s acc w c, w ∈ splitGo S s acc → c ∈ w → c ∈ s ∨ c ∈ acc := by
  intro s
  induction s with
  | nil =>
    intro acc w c hw hc
    by_cases h : acc = []
    · simp [splitGo, h] at hw
    · simp [splitGo, h] at hw
      subst hw
      exact Or.inr (List.mem_reverse.mp hc)
  | cons d cs ih =>
    intro acc w c hw hc
    by_cases hd : S d = true
    · by_cases h : acc = []
      · simp only [splitGo, hd, if_true, h, ite_true] at hw
        rcases ih [] w c hw hc with h' | h'
        · exact Or.inl (List.mem_cons_of_mem d h')
        · simp at h'
      · simp only [splitGo, hd, if_true, h, ite_false] at hw
        rcases List.mem_cons.mp hw with rfl | hw
        · exact Or.inr (List.mem_reverse.mp hc)
        · rcases ih [] w c hw hc with h' | h'
          · exact Or.inl (List.mem_cons_of_mem d h')
          · simp at h'
    · simp only [Bool.not_eq_true] at hd
      simp only [splitGo, hd, Bool.false_eq_true, ite_false] at hw
      rcases ih (d :: acc) w c hw hc with h' | h'
      · exact Or.inl (List.mem_cons_of_mem d h')
      · rcases List.mem_cons.mp h' with rfl | h'
        · exact Or.inl (List.mem_cons_self _ _)
        · exact Or.inr h'

theorem joinWords_mem :
    ∀ ws (c : Char), c ∈ joinWords ws → c = ' ' ∨ ∃ w ∈ ws, c ∈ w := by
  intro ws
  induction ws with
  | nil => intro c hc; simp [joinWords] at hc
  | cons w ws ih =>
    intro c hc
    simp only [joinWords, List.mem_append] at hc
    rcases hc with hc | hc
    · exact Or.inr ⟨w, List.mem_cons_self w ws, hc⟩
    · cases ws with
      | nil => simp [joinTail] at hc
      | cons u us =>
        simp only [joinTail, List.mem_cons] at hc
        rcases hc with rfl | hc
        · exact Or.inl rfl
        · have : c ∈ joinWords (u :: us) := by simpa [joinWords] using hc
          rcases ih c this with h | ⟨v, hv, hcv⟩
          · exact Or.inl h
          · exact Or.inr ⟨v, List.mem_cons_of_mem w hv, hcv⟩

theorem splitGo_word_run (S : Char → Bool) :
    ∀ (w rest acc : List Char), (∀ c ∈ w, S c = false) →
      splitGo S (w ++ rest) acc = splitGo S rest (w.reverse ++ acc) := by
  intro w
  induction w with
  | nil => intro rest acc _; simp
  | cons c w ih =>
    intro rest acc hw
    have hc : S c = false := hw c (List.mem_cons_self c w)
    simp only [List.cons_append, splitGo, hc, Bool.false_eq_true, ite_false]
    show splitGo S (w ++ rest) (c :: acc) = _
    rw [ih rest (c :: acc) (fun d hd => hw d (List.mem_cons_of_mem c hd))]
    simp

theorem split_join_roundtrip (S : Char → Bool) (hsp : S ' ' = true) :
    ∀ ws, (∀ w ∈ ws, w ≠ [] ∧ ∀ c ∈ w, S c = false) →
      pySplit S (joinWords ws) = ws := by
  intro ws
  induction ws with
  | nil => intro _; simp [pySplit, joinWords, splitGo]
  | cons w ws ih =>
    intro h
    have hw := h w (List.mem_cons_self w ws)
    cases ws with
    | nil =>
      unfold pySplit
      have hJ : joinWords [w] = w ++ [] := rfl
      rw [hJ, splitGo_word_run S w [] [] hw.2]
      have hne : w.reverse ≠ [] := by simpa using hw.1
      simp [splitGo, hne]
    | cons u us =>
      have hrest : ∀ v ∈ u :: us, v ≠ [] ∧ ∀ c ∈ v, S c = false :=
        fun v hv => h v (List.mem_cons_of_mem w hv)
      have hJ : joinWords (w :: u :: us) = w ++ (' ' :: joinWords (u :: us)) := by
        simp [joinWords, joinTail]
      unfold pySplit
      rw [hJ, splitGo_word_run S w (' ' :: joinWords (u :: us)) [] hw.2]
      have hne : w.reverse ≠ [] := by simpa using hw.1
      have htail : splitGo S (joinWords (u :: us)) [] = u :: us := by
        simpa [pySplit] using ih hrest
      simp [splitGo, hsp, hne, htail]

theorem joinWords_rev_head (S : Char → Bool) :
    ∀ ws, (∀ w ∈ ws, w ≠ [] ∧ ∀ c ∈ w, S c = false) → ws ≠ [] →
      ∃ c rest, (joinWords ws).reverse = c :: rest ∧ S c = false := by
  intro ws
  induction ws with
  | nil => intro _ h; exact absurd rfl h
  | cons w ws ih =>
    intro h _
    have hw := h w (List.mem_cons_self w ws)
    cases ws with
    | nil =>
      have hJ : joinWords [w] = w := by simp [joinWords, joinTail]
      rcases List.exists_cons_of_ne_nil (fun hrev => hw.1 (by simpa using hrev) :
          w.reverse ≠ []) with ⟨c, rest, hc⟩
      refine ⟨c, rest, by rw [hJ, hc], ?_⟩
      have : c ∈ w.reverse := by rw [hc]; exact List.mem_cons_self c rest
      exact hw.2 c (List.mem_reverse.mp this)
    | cons u us =>
      have hrest : ∀ v ∈ u :: us, v ≠ [] ∧ ∀ c ∈ v, S c = false :=
        fun v hv => h v (List.mem_cons_of_mem w hv)
      rcases ih hrest (by simp) with ⟨c, rest, hc, hcS⟩
      have hJ : joinWords (w :: u :: us) = w ++ (' ' :: joinWords (u :: us)) := by
        simp [joinWords, joinTail]
      refine ⟨c, rest ++ ' ' :: w.reverse, ?_, hcS⟩
      rw [hJ]
      simp [List.reverse_append, hc]

theorem pyStrip_joinWords (S : Char → Bool) :
    ∀ ws, (∀ w ∈ ws, w ≠ [] ∧ ∀ c ∈ w, S c = false) →
      pyStrip S (joinWords ws) = joinWords ws := by
  intro ws h
  cases ws with
  | nil => simp [joinWords, pyStrip]
  | cons w ws =>
    have hw := h w (List.mem_cons_self w ws)
    rcases List.exists_cons_of_ne_nil hw.1 with ⟨c, w', rfl⟩
    have hcS : S c = false := hw.2 c (List.mem_cons_self c w')
    have hJ : joinWords ((c :: w') :: ws) = c :: (w' ++ joinTail ws) := by
      simp [joinWords]
    rcases joinWords_rev_head S ((c :: w') :: ws) h (by simp) with ⟨d, rest, hd, hdS⟩
    unfold pyStrip
    rw [hJ] at hd ⊢
    rw [List.dropWhile_cons, if_neg (by simp [hcS])]
    rw [show (c :: (w' ++ joinTail ws)).reverse = d :: rest from hd]
    rw [List.dropWhile_cons, if_neg (by simp [hdS])]
    rw [← hd, List.reverse_reverse]

theorem map_eq_self_of (f : Char → Char) :
    ∀ l : List Char, (∀ c ∈ l, f c = c) → l.map f = l := by
  intro l
  induction l with
  | nil => intro _; simp
  | cons c l ih =>
    intro h
    simp only [List.map_cons, h c (List.mem_cons_self c l),
      ih (fun d hd => h d (List.mem_cons_of_mem c hd))]

theorem filter_eq_self_of (p : Char → Bool) :
    ∀ l : List Char, (∀ c ∈ l, p c = true) → l.filter p = l := by
  intro l
  induction l with
  | nil => intro _; simp
  | cons c l ih =>
    intro h
    simp only [List.filter_cons, h c (List.mem_cons_self c l), if_pos,
      ih (fun d hd => h d (List.mem_cons_of_mem c hd))]

theorem keepChar_specialReplace (P S : Char → Bool) (c : Char)
    (h : keepChar P S c = true) : keepChar P S (specialReplace c) = true := by
  unfold specialReplace
  split_ifs with h1 h2 h3
  · have hx : '-' ∈ extraAllowedChars := by decide
    simp [keepChar, hx]
  · have hx : '"' ∈ extraAllowedChars := by decide
    simp [keepChar, hx]
  · have hx : '\x27' ∈ extraAllowedChars := by decide
    simp [keepChar, hx]
  · exact h

theorem specialReplace_idem (c : Char) :
    specialReplace (specialReplace c) = specialReplace c := by
  by_cases h1 : c = '–' ∨ c = '—'
  · rw [show specialReplace c = '-' from by unfold specialReplace; rw [if_pos h1]]
    decide
  · by_cases h2 : c = '“' ∨ c = '”'
    · rw [show specialReplace c = '"' from by
        unfold specialReplace; rw [if_neg h1, if_pos h2]]
      decide
    · by_cases h3 : c = '’' ∨ c = '‘'
      · rw [show specialReplace c = '\x27' from by
          unfold specialReplace; rw [if_neg h1, if_neg h2, if_pos h3]]
        decide
      · have hc : specialReplace c = c := by
          unfold specialReplace; rw [if_neg h1, if_neg h2, if_neg h3]
        rw [hc, hc]

theorem dropWhile_mem (S : Char → Bool) :
    ∀ (l : List Char) (c : Char), c ∈ l.dropWhile S → c ∈ l := by
  intro l
  induction l with
  | nil => simp
  | cons d ds ih =>
    intro c hc
    rw [List.dropWhile_cons] at hc
    split_ifs at hc with hS
    · exact List.mem_cons_of_mem d (ih c hc)
    · exact hc

theorem pyStrip_mem (S : Char → Bool) (l : List Char) (c : Char)
    (h : c ∈ pyStrip S l) : c ∈ l := by
  unfold pyStrip at h
  rw [List.mem_reverse] at h
  have h1 := dropWhile_mem S _ c h
  rw [List.mem_reverse] at h1
  exact dropWhile_mem S l c h1

theorem sanitize_ne_nil_eq (P S : Char → Bool) (nfkc : List Char → List Char)
    (z : List Char) (hz : z ≠ []) :
    sanitize P S nfkc z = sanitizeCore P S nfkc z := by
  unfold sanitize
  rw [if_neg hz]

theorem sanitize_chars (P S : Char → Bool) (nfkc : List Char → List Char)
    (x : List Char) (hsp : S ' ' = true) :
    ∀ c ∈ sanitize P S nfkc x, keepChar P S c = true ∧ specialReplace c = c := by
  intro c hc
  by_cases hx : x = []
  · simp [sanitize, hx] at hc
  · rw [sanitize_ne_nil_eq P S nfkc x hx] at hc
    unfold sanitizeCore at hc
    have hc1 : c ∈ joinWords (pySplit S (((nfkc x).filter (keepChar P S)).map specialReplace)) :=
      pyStrip_mem S _ c hc
    rcases joinWords_mem _ c hc1 with rfl | ⟨w, hwmem, hcw⟩
    · constructor
      · simp [keepChar, hsp]
      · decide
    · have hcf : c ∈ ((nfkc x).filter (keepChar P S)).map specialReplace := by
        rcases splitGo_mem S _ [] w c hwmem hcw with h | h
        · exact h
        · simp at h
      rcases List.mem_map.mp hcf with ⟨c₀, hc₀, rfl⟩
      have hkeep : keepChar P S c₀ = true := (List.mem_filter.mp hc₀).2
      exact ⟨keepChar_specialReplace P S c₀ hkeep, specialReplace_idem c₀⟩

/-- C8 (amended): `_sanitize_text` is idempotent on every input whose
sanitized output is a fixed point of the NFKC normalization (in particular
on any input whose sanitized form contains no decomposed character
sequence): the second pass filters nothing (all surviving characters are
printable/whitespace/allowed punctuation), replaces nothing, and the
whitespace collapse and strip are already stable. The hypothesis is
necessary: dropping non-printable characters can make two characters
adjacent that NFKC composes on the second pass (see the counterexample). -/
theorem c8_sanitize_fixed_point (P S : Char → Bool) (nfkc : List Char → List Char)
    (x : List Char) (hsp : S ' ' = true)
    (hn : nfkc (sanitize P S nfkc x) = sanitize P S nfkc x) :
    sanitize P S nfkc (sanitize P S nfkc x) = sanitize P S nfkc x := by
  by_cases hy : sanitize P S nfkc x = []
  · rw [hy]
    simp [sanitize]
  · have hxne : x ≠ [] := by
      intro h
      exact hy (by simp [sanitize, h])
    set f := ((nfkc x).filter (keepChar P S)).map specialReplace with hf
    have hwords : ∀ w ∈ pySplit S f, w ≠ [] ∧ ∀ c ∈ w, S c = false :=
      splitGo_words S f [] (by simp)
    have hyform : sanitize P S nfkc x = joinWords (pySplit S f) := by
      rw [sanitize_ne_nil_eq P S nfkc x hxne]
      unfold sanitizeCore
      rw [← hf]
      exact pyStrip_joinWords S (pySplit S f) hwords
    have hchars := sanitize_chars P S nfkc x hsp
    rw [sanitize_ne_nil_eq P S nfkc _ hy]
    unfold sanitizeCore
    rw [hn, filter_eq_self_of (keepChar P S) _ (fun c hc => (hchars c hc).1),
      map_eq_self_of specialReplace _ (fun c hc => (hchars c hc).2),
      hyform, split_join_roundtrip S hsp (pySplit S f) hwords]
    exact pyStrip_joinWords S (pySplit S f) hwords

/-- Witness for C8 (amended): with identity normalization (already-composed
input) the whitespace-heavy title is a fixed point after one pass. -/
theorem c8_sanitize_fixed_point_witness :
    sanitize (fun _ => true) (fun c => c == ' ') id
        (sanitize (fun _ => true) (fun c => c == ' ') id
          " Imagine  (Remastered 2010)  ".toList) =
      sanitize (fun _ => true) (fun c => c == ' ') id
        " Imagine  (Remastered 2010)  ".toList :=
  c8_sanitize_fixed_point (fun _ => true) (fun c => c == ' ') id
    " Imagine  (Remastered 2010)  ".toList (by decide) rfl

/-- C8 counterexample: `_sanitize_text` is not idempotent. On the input
`"e" + U+0001 + U+0301` the first pass leaves `"e" + U+0301` (NFKC does not
compose across the control character, which the printable filter then
removes), but the second pass NFKC-composes the now-adjacent pair to
`"é"`, a different string. -/
theorem c8_counterexample :
    sanitize printableModel spaceModel nfkcModel ['e', '\u0001', '\u0301'] =
      ['e', '\u0301'] ∧
    sanitize printableModel spaceModel nfkcModel
        (sanitize printableModel spaceModel nfkcModel ['e', '\u0001', '\u0301']) =
      ['\u00E9'] ∧
    sanitize printableModel spaceModel nfkcModel
        (sanitize printableModel spaceModel nfkcModel ['e', '\u0001', '\u0301']) ≠
      sanitize printableModel spaceModel nfkcModel ['e', '\u0001', '\u0301'] := by
  refine ⟨by decide, by decide, by decide⟩

end YtTransfer

